import Mathlib

/-!
# Verification of the DecoTV virtual-grid, image-preload and TVBox-merge code

Shallow embedding of the DecoTV sources:

* `VirtualGrid` (the virtual-scrolling grid component): the `rowCount`
  derivation, the `cellComponent` cell factory (gap correction, out-of-bounds
  placeholder, priority flag) and the three-way render dispatch
  (empty / capability-loading / populated).
* `useImagePreload` (the image preload hook): the candidate-URL selection,
  the hint-issuing effect over the process-wide registry and the document
  head, and the unmount cleanup.
* `tvbox` utilities: `sanitizeKey` and `mergeTVBoxSites`.

Pixel quantities are modelled as rationals (JS numbers carry exact values on
the inputs of interest); the DOM and the process-wide registry are modelled
as explicit state (lists of link elements / registered URLs).
-/

namespace DecoTV

/- ======================================================================
   VirtualGrid (component source: the virtual grid file)
   ====================================================================== -/

/-- The subset of the CSS style object that the cell factory reads or
writes: `left`, `top`, `width`, `height` (all pixel numbers). Other CSS
properties are carried through the `...style` spread unchanged and are
irrelevant to the claims. -/
structure Style where
  left : ℚ
  top : ℚ
  width : ℚ
  height : ℚ
deriving DecidableEq, Repr

/-- Result of one invocation of the cell factory: either the blank
placeholder `<div style={style} />` rendered for out-of-bounds cells, or a
`<div style={adjustedStyle}>` wrapping the output of `renderItem`. -/
inductive CellOutput (α : Type) where
  | placeholder (style : Style)
  | rendered (style : Style) (content : α)
deriving DecidableEq, Repr

/-- The cell factory built in `VirtualGridInner` (`cellComponent`):

```
const index = rowIndex * columnCount + columnIndex;
if (index >= items.length) { return <div style={style} />; }
const item = items[index];
const priority = index < priorityCount;
const adjustedStyle = { ...style,
  left: Number(style.left) + columnIndex * gap,
  top: Number(style.top) + rowIndex * gap,
  width: Number(style.width), height: Number(style.height), padding: 0 };
return <div style={adjustedStyle}>{renderItem(item, priority, index)}</div>;
```
-/
def Cell {T α : Type} (items : List T) (columnCount priorityCount : ℕ) (gap : ℚ)
    (renderItem : T → Bool → ℕ → α) (columnIndex rowIndex : ℕ) (style : Style) :
    CellOutput α :=
  let index := rowIndex * columnCount + columnIndex
  if h : items.length ≤ index then
    CellOutput.placeholder style
  else
    CellOutput.rendered
      { style with
          left := style.left + columnIndex * gap
          top := style.top + rowIndex * gap }
      (renderItem (items.get ⟨index, Nat.lt_of_not_le h⟩)
        (decide (index < priorityCount)) index)

/-- Row-count derivation `const rowCount = Math.ceil(items.length / columnCount);`

In JS, division by `0` yields `Infinity` (or `NaN` for `0/0`) and
`Math.ceil` maps those to themselves; the non-finite outcome is modelled
as `none`. -/
def rowCount (itemsLength columnCount : ℕ) : Option ℕ :=
  if columnCount = 0 then none
  else some ⌈(itemsLength : ℚ) / (columnCount : ℚ)⌉₊

/-- The behaviour asserted by the spec for the row-count derivation: the
column count is clamped to a minimum of 1 before the division, so the
result is always a finite natural number. -/
def rowCountClamped (itemsLength columnCount : ℕ) : Option ℕ :=
  some ⌈(itemsLength : ℚ) / ((max columnCount 1 : ℕ) : ℚ)⌉₊

/-- Default of the `priorityCount` prop: `priorityCount = 12`. -/
def priorityCountDefault : ℕ := 12

/-- The three top-level render outcomes of `VirtualGridInner`:
the empty-state `<div>暂无数据</div>`, the bare placeholder rendered while
`GridComponent` is still `null` (capability loading), and the populated
container, which mounts the inner `<GridComponent>` iff
`containerWidth > 0`. -/
inductive RenderOutput where
  | emptyState (text : String)
  | capabilityLoading
  | container (withGrid : Bool)
deriving DecidableEq, Repr

/-- Top-level dispatch of `VirtualGridInner`'s render, in source order:

```
if (items.length === 0) { return <div ...>暂无数据</div>; }
if (!GridComponent) { return <div className="virtual-grid-container ..." />; }
return <div ...>{containerWidth > 0 && <GridComponent .../>}</div>;
```
-/
def render (itemsLength : ℕ) (gridReady : Bool) (containerWidth : ℚ) :
    RenderOutput :=
  if itemsLength = 0 then RenderOutput.emptyState "暂无数据"
  else if gridReady = false then RenderOutput.capabilityLoading
  else RenderOutput.container (decide (0 < containerWidth))

/-- Modelled from the spec: the underlying fixed-size positioning scheme
(react-window's `Grid`, an external dependency configured with
`columnWidth = itemWidth` and `rowHeight = itemHeight`) positions the raw
cell at `left = columnIndex * itemWidth`, `top = rowIndex * itemHeight`,
with the cell's own dimensions, and no inter-cell gap. -/
def baseStyle (itemWidth itemHeight : ℚ) (columnIndex rowIndex : ℕ) : Style :=
  { left := columnIndex * itemWidth
    top := rowIndex * itemHeight
    width := itemWidth
    height := itemHeight }

/-- The horizontal position at which a cell's output is rendered. -/
def effectiveLeft {α : Type} : CellOutput α → ℚ
  | CellOutput.placeholder st => st.left
  | CellOutput.rendered st _ => st.left

/- ======================================================================
   Arithmetic helper: ceiling of a natural division
   ====================================================================== -/

/-- Ceiling arithmetic: `Math.ceil(n / c)` over naturals agrees with the usual integer
formula `(n + c - 1) / c` whenever `c ≥ 1`. -/
theorem natCeil_div_eq (n c : ℕ) (hc : 0 < c) :
    ⌈(n : ℚ) / (c : ℚ)⌉₊ = (n + c - 1) / c := by
  rcases Nat.eq_zero_or_pos n with hn | hn
  · subst hn
    simp [Nat.div_eq_of_lt, Nat.sub_lt hc]
  · have hcq : (0 : ℚ) < (c : ℚ) := by exact_mod_cast hc
    set d := (n + c - 1) / c with hd
    have hd1 : 1 ≤ d := by
      have : c ≤ n + c - 1 := by omega
      have := Nat.one_le_div_iff hc |>.mpr this
      simpa [hd] using this
    have hlow : d * c ≤ n + c - 1 := Nat.div_mul_le_self _ _
    have hhigh : n + c - 1 < (d + 1) * c := by
      have : (n + c - 1) / c < d + 1 := by omega
      exact (Nat.div_lt_iff_lt_mul hc).mp this
    have hexp : (d + 1) * c = d * c + c := by ring
    have hn_le : n ≤ d * c := by omega
    have hlt : (d - 1) * c < n := by
      have : (d - 1) * c = d * c - c := by
        cases d with
        | zero => omega
        | succ k => simp [Nat.succ_sub_one, Nat.succ_mul]
      omega
    rw [Nat.ceil_eq_iff (by omega : d ≠ 0)]
    constructor
    · rw [lt_div_iff₀ hcq]
      calc ((d - 1 : ℕ) : ℚ) * (c : ℚ) = (((d - 1) * c : ℕ) : ℚ) := by push_cast; ring
        _ < (n : ℚ) := by exact_mod_cast hlt
    · rw [div_le_iff₀ hcq]
      calc (n : ℚ) ≤ ((d * c : ℕ) : ℚ) := by exact_mod_cast hn_le
        _ = (d : ℚ) * (c : ℚ) := by push_cast; ring

/- ======================================================================
   Theorems about the grid
   ====================================================================== -/

/-- C1 (amended): the row-count derivation applies no clamp to the column
count: it computes `Math.ceil(items.length / columnCount)` directly, so a
column count of `0` yields a non-finite result (`none`); only for
`columnCount ≥ 1` is the derivation a well-defined ceiling division. -/
theorem rowCount_no_clamp (n c : ℕ) :
    (c = 0 → rowCount n c = none) ∧
    (1 ≤ c → rowCount n c = some ((n + c - 1) / c)) := by
  constructor
  · intro h
    simp [rowCount, h]
  · intro h
    have hc : c ≠ 0 := by omega
    rw [rowCount, if_neg hc, natCeil_div_eq n c (by omega)]

/-- C1 counterexample: at `items.length = 5` and `columnCount = 0` the
code's row count is non-finite (`Math.ceil(5 / 0) = Infinity`, modelled
`none`), while the claimed clamp-to-1 behaviour would give `5`; the two
disagree, so no clamp to a minimum of 1 is applied. -/
theorem rowCount_clamp_counterexample :
    rowCount 5 0 = none ∧ rowCountClamped 5 0 = some 5 ∧
    rowCount 5 0 ≠ rowCountClamped 5 0 := by
  have h2 : rowCountClamped 5 0 = some 5 := by
    rw [rowCountClamped]; norm_num
  refine ⟨rfl, h2, ?_⟩
  rw [h2]
  simp [rowCount]

/-- Witness for `rowCount_no_clamp` at concrete inputs. -/
theorem rowCount_no_clamp_witness :
    rowCount 5 0 = none ∧ rowCount 7 3 = some ((7 + 3 - 1) / 3) :=
  ⟨(rowCount_no_clamp 5 0).1 rfl, (rowCount_no_clamp 7 3).2 (by norm_num)⟩

/-- C5: for every item count `n ≥ 0` and column count `c ≥ 1`, the derived
row count equals `ceil(n / c)` (the finite ceiling division). -/
theorem rowCount_eq_ceil (n c : ℕ) (h : 1 ≤ c) :
    rowCount n c = some ((n + c - 1) / c) := by
  have hc : c ≠ 0 := by omega
  rw [rowCount, if_neg hc, natCeil_div_eq n c (by omega)]

/-- Witness for `rowCount_eq_ceil`: 100 items in 5 columns make 20 rows. -/
theorem rowCount_eq_ceil_witness :
    (1 ≤ 5) ∧ rowCount 100 5 = some 20 := by
  refine ⟨by norm_num, ?_⟩
  have := rowCount_eq_ceil 100 5 (by norm_num)
  simpa using this

/-- C9: with zero items the renderer produces the literal empty-state
placeholder `暂无数据`, regardless of whether the grid capability is loaded
or the container is measured — the empty check is evaluated first and
takes precedence over the uninitialized and populated states. -/
theorem render_zero_items (gridReady : Bool) (containerWidth : ℚ) :
    render 0 gridReady containerWidth = RenderOutput.emptyState "暂无数据" :=
  rfl

/-- C6: a cell whose linear index `rowIndex * columnCount + columnIndex`
is at or beyond the item count renders as the blank placeholder carrying
the unchanged style (hence the same cell dimensions), and the
caller-supplied `renderItem` factory is never invoked: the output does not
depend on the factory at all. -/
theorem cell_out_of_bounds {T α : Type} (items : List T) (cc pc : ℕ)
    (gap : ℚ) (f g : T → Bool → ℕ → α) (ci ri : ℕ) (st : Style)
    (h : items.length ≤ ri * cc + ci) :
    Cell items cc pc gap f ci ri st = CellOutput.placeholder st ∧
    Cell items cc pc gap f ci ri st = Cell items cc pc gap g ci ri st := by
  unfold Cell
  rw [dif_pos h, dif_pos h]
  exact ⟨rfl, rfl⟩

/-- Witness for `cell_out_of_bounds` at a concrete out-of-bounds cell. -/
theorem cell_out_of_bounds_witness :
    ([10, 20] : List ℕ).length ≤ 1 * 2 + 0 ∧
    Cell [10, 20] 2 12 (1 : ℚ) (fun it p i => (it, p, i)) 0 1
        (Style.mk 0 0 10 15)
      = CellOutput.placeholder (Style.mk 0 0 10 15) := by
  have h : ([10, 20] : List ℕ).length ≤ 1 * 2 + 0 := by simp
  exact ⟨h, (cell_out_of_bounds [10, 20] 2 12 1 (fun it p i => (it, p, i))
    (fun it p i => (it, p, i)) 0 1 (Style.mk 0 0 10 15) h).1⟩

/-- C8: every in-bounds cell invokes the renderer with
`priority = (linearIndex < priorityCount)`; `priorityCount` defaults to 12;
and in the scenario of 100 items with 5 columns the row count is 20 while
indices 0–11 get `priority = true` and indices 12+ get `false`. -/
theorem cell_priority (T α : Type) (items : List T) (cc pc : ℕ) (gap : ℚ)
    (f : T → Bool → ℕ → α) (ci ri : ℕ) (st : Style)
    (h : ri * cc + ci < items.length) :
    (∃ st' : Style, Cell items cc pc gap f ci ri st
      = CellOutput.rendered st'
          (f (items.get ⟨ri * cc + ci, h⟩)
            (decide (ri * cc + ci < pc)) (ri * cc + ci))) ∧
    priorityCountDefault = 12 ∧
    rowCount 100 5 = some 20 ∧
    (∀ i : ℕ, i < 12 → decide (i < priorityCountDefault) = true) ∧
    (∀ i : ℕ, 12 ≤ i → decide (i < priorityCountDefault) = false) := by
  refine ⟨?_, rfl, ?_, ?_, ?_⟩
  · refine ⟨{ st with left := st.left + ci * gap, top := st.top + ri * gap }, ?_⟩
    unfold Cell
    rw [dif_neg (not_le.mpr h)]
  · rw [rowCount]; norm_num
  · intro i hi
    simp [priorityCountDefault]
    omega
  · intro i hi
    simp [priorityCountDefault]
    omega

/-- Witness for `cell_priority` at a concrete in-bounds cell. -/
theorem cell_priority_witness :
    (2 * 5 + 1 < (List.range 100).length) ∧
    priorityCountDefault = 12 ∧ rowCount 100 5 = some 20 := by
  have h : 2 * 5 + 1 < (List.range 100).length := by simp
  have hmain := cell_priority ℕ (ℕ × Bool × ℕ) (List.range 100) 5 12 1
    (fun it p i => (it, p, i)) 1 2 (Style.mk 0 0 10 15) h
  exact ⟨h, hmain.2.1, hmain.2.2.1⟩

/-- C2: each in-bounds cell is rendered at
`basePosition + index-along-axis * gap` on both axes
(`left + columnIndex * gap`, `top + rowIndex * gap`, dimensions
unchanged); consequently, for adjacent in-bounds cells at columns `k` and
`k + 1` of the same row positioned by the fixed-size scheme, the
horizontal position difference is exactly `itemWidth + gap`. -/
theorem cell_gap_correction {T α : Type} (items : List T) (cc pc : ℕ)
    (gap itemWidth itemHeight : ℚ) (f : T → Bool → ℕ → α) :
    (∀ (ci ri : ℕ) (st : Style), ri * cc + ci < items.length →
      ∃ content : α, Cell items cc pc gap f ci ri st
        = CellOutput.rendered
            (Style.mk (st.left + ci * gap) (st.top + ri * gap)
              st.width st.height) content) ∧
    (∀ k r : ℕ, r * cc + (k + 1) < items.length →
      effectiveLeft (Cell items cc pc gap f (k + 1) r
          (baseStyle itemWidth itemHeight (k + 1) r))
        - effectiveLeft (Cell items cc pc gap f k r
          (baseStyle itemWidth itemHeight k r))
      = itemWidth + gap) := by
  constructor
  · intro ci ri st h
    refine ⟨f (items.get ⟨ri * cc + ci, h⟩)
      (decide (ri * cc + ci < pc)) (ri * cc + ci), ?_⟩
    unfold Cell
    rw [dif_neg (not_le.mpr h)]
  · intro k r hk
    have h1 : r * cc + k < items.length := by omega
    unfold Cell
    rw [dif_neg (not_le.mpr hk), dif_neg (not_le.mpr h1)]
    simp only [effectiveLeft, baseStyle]
    push_cast
    ring

/-- Witness for `cell_gap_correction` at concrete adjacent cells. -/
theorem cell_gap_correction_witness :
    (0 * 3 + (1 + 1) < (List.range 9).length) ∧
    effectiveLeft (Cell (List.range 9) 3 12 (2 : ℚ)
        (fun it p i => (it, p, i)) (1 + 1) 0 (baseStyle 10 15 (1 + 1) 0))
      - effectiveLeft (Cell (List.range 9) 3 12 2
        (fun it p i => (it, p, i)) 1 0 (baseStyle 10 15 1 0))
    = 10 + 2 := by
  have h : 0 * 3 + (1 + 1) < (List.range 9).length := by simp
  exact ⟨h, (cell_gap_correction (List.range 9) 3 12 2 10 15
    (fun it p i => (it, p, i))).2 1 0 h⟩

/- ======================================================================
   useImagePreload (src/hooks/useImagePreload.ts)
   ====================================================================== -/

/-- JS `String.prototype.trim`: strip leading and trailing whitespace.
(The JS and Lean whitespace classes agree on the characters appearing in
URLs; the exotic members of the JS class are irrelevant here.) -/
def jsTrim (s : String) : String :=
  String.mk
    (((s.data.dropWhile Char.isWhitespace).reverse.dropWhile
      Char.isWhitespace).reverse)

/-- The JS validity test `url && url.trim() !== ''`: the URL is a
non-empty (truthy) string whose trim is non-empty. -/
def isValidUrl (url : String) : Bool :=
  url ≠ "" && jsTrim url ≠ ""

/-- Candidate selection of the hook:
`urls.slice(0, count).filter((url) => url && url.trim() !== '')`. -/
def urlsToPreload (urls : List String) (count : ℕ) : List String :=
  (urls.take count).filter isValidUrl

/-- The behaviour asserted by the spec for the candidate selection: the
first `count` elements of the subsequence of non-empty URLs
(filter first, then take). -/
def urlsToPreloadSpec (urls : List String) (count : ℕ) : List String :=
  (urls.filter isValidUrl).take count

/-- A `<link rel="preload" as="image">` hint element in the document
head, identified by the DOM node (`id`) and carrying its `href`. -/
structure Link where
  id : ℕ
  href : String
deriving DecidableEq, Repr

/-- The state the hook's effect reads and mutates: the process-wide
`preloadedUrls` registry (a set, modelled as a duplicate-free list), the
preload hint elements currently in `document.head`, and a counter
supplying fresh DOM node identities. -/
structure PreloadState where
  preloadedUrls : List String
  head : List Link
  nextId : ℕ
deriving DecidableEq, Repr

/-- The empty initial state: empty registry, no hints in the document. -/
def initialPreloadState : PreloadState :=
  { preloadedUrls := [], head := [], nextId := 0 }

/-- One iteration of the `urlsToPreload.forEach((url) => ...)` body, also
threading `addedLinksRef.current` (the second component):

```
if (preloadedUrls.has(url)) return;
const existing = document.querySelector('link[rel="preload"][href=url]');
if (existing) { preloadedUrls.add(url); return; }
const link = document.createElement('link'); ... link.href = url; ...
document.head.appendChild(link);
addedLinksRef.current.push(link);
preloadedUrls.add(url);
```
-/
def scheduleOne (p : PreloadState × List Link) (url : String) :
    PreloadState × List Link :=
  let s := p.1
  if url ∈ s.preloadedUrls then p
  else if s.head.any (fun lk => lk.href = url) then
    ({ s with preloadedUrls := url :: s.preloadedUrls }, p.2)
  else
    let link : Link := { id := s.nextId, href := url }
    ({ preloadedUrls := url :: s.preloadedUrls
       head := s.head ++ [link]
       nextId := s.nextId + 1 }, p.2 ++ [link])

/-- The whole `forEach` loop over a list of candidate URLs. -/
def runPreload (p : PreloadState × List Link) (l : List String) :
    PreloadState × List Link :=
  l.foldl scheduleOne p

/-- The body of the hook's main effect: select the candidates and issue
hints for them. (The early return on an empty `urls` array is the
identity, exactly as folding over an empty candidate list is.) -/
def useImagePreloadEffect (s : PreloadState) (added : List Link)
    (urls : List String) (count : ℕ) : PreloadState × List Link :=
  runPreload (s, added) (urlsToPreload urls count)

/-- One iteration of the unmount cleanup
`addedLinksRef.current.forEach((link) => ...)`:

```
try {
  document.head.removeChild(link);   // throws if link is not in head
  preloadedUrls.delete(link.href);
} catch { /* ignored */ }
```

If the link is no longer in the head, `removeChild` throws before the
registry delete, and the catch swallows it: the state is unchanged. -/
def cleanupOne (s : PreloadState) (lk : Link) : PreloadState :=
  if lk ∈ s.head then
    { s with
        head := s.head.erase lk
        preloadedUrls := s.preloadedUrls.filter (fun u => u ≠ lk.href) }
  else s

/-- The whole unmount cleanup over the links this instance added. -/
def cleanupPreload (s : PreloadState) (added : List Link) : PreloadState :=
  added.foldl cleanupOne s

/- ======================================================================
   Theorems about the preload scheduler: candidate selection (C3)
   ====================================================================== -/

/-- C3 counterexample: with `urls = ["", "a", "b"]` and `count = 2` the
code selects `["a"]` (slice first, filter second), while the first two
elements of the non-empty subsequence are `["a", "b"]`. -/
theorem urlsToPreload_counterexample :
    urlsToPreload ["", "a", "b"] 2 = ["a"] ∧
    urlsToPreloadSpec ["", "a", "b"] 2 = ["a", "b"] ∧
    urlsToPreload ["", "a", "b"] 2 ≠ urlsToPreloadSpec ["", "a", "b"] 2 := by
  refine ⟨?_, ?_, ?_⟩ <;> decide

/-- C3 (amended): the scheduler selects exactly the non-empty URLs among
the first `count` elements of the sequence — an order-preserving sublist
of the first `count` URLs that contains precisely its non-empty members
(not the first `count` elements of the non-empty subsequence). -/
theorem urlsToPreload_amended (urls : List String) (count : ℕ) :
    (urlsToPreload urls count).Sublist (urls.take count) ∧
    (∀ u ∈ urlsToPreload urls count, isValidUrl u = true) ∧
    (∀ u ∈ urls.take count, isValidUrl u = true →
      u ∈ urlsToPreload urls count) := by
  refine ⟨List.filter_sublist _, ?_, ?_⟩
  · intro u hu
    exact List.of_mem_filter hu
  · intro u hu hv
    exact List.mem_filter.mpr ⟨hu, hv⟩

/-- Witness for `urlsToPreload_amended` at a concrete input. -/
theorem urlsToPreload_amended_witness :
    ("a" ∈ (["", "a"] : List String).take 2) ∧ isValidUrl "a" = true ∧
    "a" ∈ urlsToPreload ["", "a"] 2 := by
  have h1 : "a" ∈ (["", "a"] : List String).take 2 := by decide
  have h2 : isValidUrl "a" = true := by decide
  exact ⟨h1, h2, (urlsToPreload_amended ["", "a"] 2).2.2 "a" h1 h2⟩

/- ======================================================================
   Helper lemmas about the preload effect loop
   ====================================================================== -/

/-- Unfolding one step of the `forEach` loop. -/
theorem runPreload_cons (p : PreloadState × List Link) (u : String)
    (l : List String) :
    runPreload p (u :: l) = runPreload (scheduleOne p u) l := rfl

/-- A URL already in the registry is skipped without any state change. -/
theorem scheduleOne_mem (p : PreloadState × List Link) (u : String)
    (h : u ∈ p.1.preloadedUrls) : scheduleOne p u = p := by
  simp [scheduleOne, h]

/-- Loop invariant of the hint-issuing loop: every hint's URL is
registered, hints and registry entries are in bijection, the registry is
duplicate-free, and after the loop the registry holds exactly the old
URLs plus the processed ones. -/
theorem runPreload_inv (l : List String) :
    ∀ (s : PreloadState) (a : List Link),
    (∀ lk ∈ s.head, lk.href ∈ s.preloadedUrls) →
    s.head.length = s.preloadedUrls.length →
    s.preloadedUrls.Nodup →
    (∀ lk ∈ (runPreload (s, a) l).1.head,
        lk.href ∈ (runPreload (s, a) l).1.preloadedUrls) ∧
    (runPreload (s, a) l).1.head.length
        = (runPreload (s, a) l).1.preloadedUrls.length ∧
    (runPreload (s, a) l).1.preloadedUrls.Nodup ∧
    (∀ u, u ∈ (runPreload (s, a) l).1.preloadedUrls ↔
        u ∈ s.preloadedUrls ∨ u ∈ l) := by
  induction l with
  | nil =>
    intro s a h1 h2 h3
    exact ⟨h1, h2, h3, fun u => by simp [runPreload]⟩
  | cons u l ih =>
    intro s a h1 h2 h3
    rw [runPreload_cons]
    by_cases hu : u ∈ s.preloadedUrls
    · rw [scheduleOne_mem (s, a) u hu]
      obtain ⟨g1, g2, g3, g4⟩ := ih s a h1 h2 h3
      refine ⟨g1, g2, g3, fun v => ?_⟩
      rw [g4 v]
      constructor
      · rintro (hv | hv)
        · exact Or.inl hv
        · exact Or.inr (List.mem_cons_of_mem _ hv)
      · rintro (hv | hv)
        · exact Or.inl hv
        · rcases List.mem_cons.mp hv with rfl | hv
          · exact Or.inl hu
          · exact Or.inr hv
    · have hany : s.head.any (fun lk => lk.href = u) = false := by
        rw [List.any_eq_false]
        intro lk hlk
        simp only [decide_eq_true_eq]
        intro heq
        exact hu (heq ▸ h1 lk hlk)
      have hss : scheduleOne (s, a) u =
          (⟨u :: s.preloadedUrls, s.head ++ [⟨s.nextId, u⟩], s.nextId + 1⟩,
            a ++ [⟨s.nextId, u⟩]) := by
        simp [scheduleOne, hu, hany]
      rw [hss]
      have h1' : ∀ lk ∈ s.head ++ [(⟨s.nextId, u⟩ : Link)],
          lk.href ∈ u :: s.preloadedUrls := by
        intro lk hlk
        rcases List.mem_append.mp hlk with hlk | hlk
        · exact List.mem_cons_of_mem _ (h1 lk hlk)
        · simp only [List.mem_singleton] at hlk
          subst hlk
          exact List.mem_cons_self _ _
      have h2' : (s.head ++ [(⟨s.nextId, u⟩ : Link)]).length
          = (u :: s.preloadedUrls).length := by
        simp [h2]
      have h3' : (u :: s.preloadedUrls).Nodup := List.nodup_cons.mpr ⟨hu, h3⟩
      obtain ⟨g1, g2, g3, g4⟩ :=
        ih ⟨u :: s.preloadedUrls, s.head ++ [⟨s.nextId, u⟩], s.nextId + 1⟩
          (a ++ [⟨s.nextId, u⟩]) h1' h2' h3'
      refine ⟨g1, g2, g3, fun v => ?_⟩
      rw [g4 v]
      simp only [List.mem_cons]
      tauto

/-- If every URL of the list is already registered, the loop is the
identity on the whole state, including the instance's added-links list. -/
theorem runPreload_skip (l : List String) :
    ∀ (s : PreloadState) (a : List Link),
    (∀ u ∈ l, u ∈ s.preloadedUrls) →
    runPreload (s, a) l = (s, a) := by
  induction l with
  | nil => intro s a _; rfl
  | cons u l ih =>
    intro s a h
    rw [runPreload_cons, scheduleOne_mem (s, a) u (h u (List.mem_cons_self _ _))]
    exact ih s a fun v hv => h v (List.mem_cons_of_mem _ hv)

/-- A URL already registered, or already present as a hint in the
document, is never hinted again: the number of hint elements carrying it
is unchanged by the loop. -/
theorem runPreload_no_rehint (l : List String) :
    ∀ (s : PreloadState) (a : List Link) (u : String),
    (u ∈ s.preloadedUrls ∨ u ∈ s.head.map Link.href) →
    ((runPreload (s, a) l).1.head.filter (fun lk => lk.href = u)).length
      = (s.head.filter (fun lk => lk.href = u)).length := by
  induction l with
  | nil => intro s a u _; rfl
  | cons v l ih =>
    intro s a u h
    rw [runPreload_cons]
    by_cases hv : v ∈ s.preloadedUrls
    · rw [scheduleOne_mem (s, a) v hv]
      exact ih s a u h
    · by_cases hany : s.head.any (fun lk => lk.href = v) = true
      · have hss : scheduleOne (s, a) v =
            ({ s with preloadedUrls := v :: s.preloadedUrls }, a) := by
          simp [scheduleOne, hv, hany]
        rw [hss]
        have h' : u ∈ ({ s with preloadedUrls := v :: s.preloadedUrls }
              : PreloadState).preloadedUrls ∨
            u ∈ ({ s with preloadedUrls := v :: s.preloadedUrls }
              : PreloadState).head.map Link.href := by
          rcases h with h | h
          · exact Or.inl (List.mem_cons_of_mem _ h)
          · exact Or.inr h
        exact ih _ a u h'
      · have hanyf : s.head.any (fun lk => lk.href = v) = false :=
          Bool.not_eq_true _ ▸ eq_false_of_ne_true hany
        have hss : scheduleOne (s, a) v =
            (⟨v :: s.preloadedUrls, s.head ++ [⟨s.nextId, v⟩], s.nextId + 1⟩,
              a ++ [⟨s.nextId, v⟩]) := by
          simp [scheduleOne, hv, hanyf]
        rw [hss]
        have huv : v ≠ u := by
          intro e
          subst e
          rcases h with h | h
          · exact hv h
          · rw [List.any_eq_false] at hanyf
            obtain ⟨lk, hlk, heq⟩ := List.mem_map.mp h
            have := hanyf lk hlk
            simp only [decide_eq_true_eq] at this
            exact this heq
        have h' : u ∈ (⟨v :: s.preloadedUrls,
              s.head ++ [⟨s.nextId, v⟩], s.nextId + 1⟩
              : PreloadState).preloadedUrls ∨
            u ∈ (⟨v :: s.preloadedUrls, s.head ++ [⟨s.nextId, v⟩],
              s.nextId + 1⟩ : PreloadState).head.map Link.href := by
          rcases h with h | h
          · exact Or.inl (List.mem_cons_of_mem _ h)
          · refine Or.inr ?_
            rw [List.map_append]
            exact List.mem_append_left _ h
        rw [ih _ _ u h']
        simp only [List.filter_append]
        have : (([⟨s.nextId, v⟩] : List Link).filter
            (fun lk => lk.href = u)) = [] := by
          simp [huv]
        rw [this, List.append_nil]

/- ======================================================================
   C7: idempotence of the preload scheduler
   ====================================================================== -/

/-- C7: running the preload effect twice from a clean slate with the same
URL list and count changes nothing on the second run and leaves exactly
one hint element per distinct selected candidate URL; and, in any state,
a URL already registered or already hinted in the document is never
hinted a second time. -/
theorem useImagePreload_idempotent (urls : List String) (count : ℕ) :
    (useImagePreloadEffect
        (useImagePreloadEffect initialPreloadState [] urls count).1
        (useImagePreloadEffect initialPreloadState [] urls count).2
        urls count
      = useImagePreloadEffect initialPreloadState [] urls count) ∧
    (useImagePreloadEffect initialPreloadState [] urls count).1.head.length
      = (urlsToPreload urls count).dedup.length ∧
    (∀ (s : PreloadState) (a : List Link) (u : String),
      u ∈ s.preloadedUrls ∨ u ∈ s.head.map Link.href →
      ((useImagePreloadEffect s a urls count).1.head.filter
          (fun lk => lk.href = u)).length
        = (s.head.filter (fun lk => lk.href = u)).length) := by
  obtain ⟨g1, g2, g3, g4⟩ :=
    runPreload_inv (urlsToPreload urls count) initialPreloadState []
      (by intro lk h; simp [initialPreloadState] at h)
      (by simp [initialPreloadState])
      (by simp [initialPreloadState])
  refine ⟨?_, ?_, ?_⟩
  · have hall : ∀ u ∈ urlsToPreload urls count,
        u ∈ (useImagePreloadEffect initialPreloadState []
          urls count).1.preloadedUrls := by
      intro u hu
      exact (g4 u).mpr (Or.inr hu)
    have := runPreload_skip (urlsToPreload urls count)
      (useImagePreloadEffect initialPreloadState [] urls count).1
      (useImagePreloadEffect initialPreloadState [] urls count).2 hall
    calc useImagePreloadEffect
          (useImagePreloadEffect initialPreloadState [] urls count).1
          (useImagePreloadEffect initialPreloadState [] urls count).2
          urls count
        = ((useImagePreloadEffect initialPreloadState [] urls count).1,
           (useImagePreloadEffect initialPreloadState [] urls count).2) :=
          this
      _ = useImagePreloadEffect initialPreloadState [] urls count := rfl
  · show (runPreload (initialPreloadState, []) (urlsToPreload urls count)).1.head.length
      = (urlsToPreload urls count).dedup.length
    rw [g2]
    have hperm : (runPreload (initialPreloadState, [])
        (urlsToPreload urls count)).1.preloadedUrls.Perm
        (urlsToPreload urls count).dedup := by
      rw [List.perm_ext_iff_of_nodup g3 (List.nodup_dedup _)]
      intro u
      rw [g4 u, List.mem_dedup]
      simp [initialPreloadState]
    exact hperm.length_eq
  · intro s a u h
    exact runPreload_no_rehint (urlsToPreload urls count) s a u h

/-- Witness for `useImagePreload_idempotent`: a concrete state in which
the URL `"a"` is already registered. -/
theorem useImagePreload_idempotent_witness :
    ("a" ∈ (PreloadState.mk ["a"] [⟨0, "a"⟩] 1).preloadedUrls ∨
      "a" ∈ (PreloadState.mk ["a"] [⟨0, "a"⟩] 1).head.map Link.href) ∧
    ((useImagePreloadEffect ⟨["a"], [⟨0, "a"⟩], 1⟩ [] ["a", "b"] 2).1.head.filter
        (fun lk => lk.href = "a")).length
      = ((PreloadState.mk ["a"] [⟨0, "a"⟩] 1).head.filter
        (fun lk => lk.href = "a")).length := by
  have h : "a" ∈ (PreloadState.mk ["a"] [⟨0, "a"⟩] 1).preloadedUrls ∨
      "a" ∈ (PreloadState.mk ["a"] [⟨0, "a"⟩] 1).head.map Link.href :=
    Or.inl (by decide)
  exact ⟨h, (useImagePreload_idempotent ["a", "b"] 2).2.2
    ⟨["a"], [⟨0, "a"⟩], 1⟩ [] "a" h⟩

/- ======================================================================
   Helper lemmas about the unmount cleanup
   ====================================================================== -/

/-- Unfolding one step of the cleanup loop. -/
theorem cleanup_cons (s : PreloadState) (lk : Link) (rest : List Link) :
    cleanupPreload s (lk :: rest) = cleanupPreload (cleanupOne s lk) rest :=
  rfl

/-- When the instance's links are distinct and all still present in the
document head (and the head itself holds distinct nodes), the cleanup
removes from the head exactly the instance's links, removes from the
registry exactly their URLs, and touches nothing else. -/
theorem cleanupPreload_exact (added : List Link) :
    ∀ s : PreloadState, added.Nodup → s.head.Nodup →
    (∀ lk ∈ added, lk ∈ s.head) →
    (cleanupPreload s added).head
        = s.head.filter (fun lk => decide (lk ∉ added)) ∧
    (cleanupPreload s added).preloadedUrls
        = s.preloadedUrls.filter
            (fun u => decide (u ∉ added.map Link.href)) ∧
    (cleanupPreload s added).nextId = s.nextId := by
  induction added with
  | nil =>
    intro s _ _ _
    refine ⟨?_, ?_, rfl⟩ <;> simp [cleanupPreload]
  | cons lk rest ih =>
    intro s hnd hh hmem
    have hlk : lk ∈ s.head := hmem lk (List.mem_cons_self _ _)
    have hco : cleanupOne s lk =
        { s with
            head := s.head.erase lk
            preloadedUrls := s.preloadedUrls.filter
              (fun u => u ≠ lk.href) } := by
      simp [cleanupOne, hlk]
    rw [cleanup_cons, hco]
    have hnd' : rest.Nodup := (List.nodup_cons.mp hnd).2
    have hlknotin : lk ∉ rest := (List.nodup_cons.mp hnd).1
    have hh' : (s.head.erase lk).Nodup := hh.erase lk
    have hmem' : ∀ l' ∈ rest, l' ∈ s.head.erase lk := by
      intro l' hl'
      have hne : l' ≠ lk := fun e => hlknotin (e ▸ hl')
      exact (List.mem_erase_of_ne hne).mpr (hmem l' (List.mem_cons_of_mem _ hl'))
    obtain ⟨e1, e2, e3⟩ :=
      ih { s with
            head := s.head.erase lk
            preloadedUrls := s.preloadedUrls.filter
              (fun u => u ≠ lk.href) } hnd' hh' hmem'
    refine ⟨?_, ?_, e3⟩
    · rw [e1]
      show (s.head.erase lk).filter (fun x => decide (x ∉ rest))
        = s.head.filter (fun x => decide (x ∉ lk :: rest))
      rw [hh.erase_eq_filter lk, List.filter_filter]
      apply List.filter_congr
      intro x _
      by_cases h1 : x = lk <;> by_cases h2 : x ∈ rest <;> simp [h1, h2]
    · rw [e2]
      show (s.preloadedUrls.filter (fun u => decide (u ≠ lk.href))).filter
          (fun u => decide (u ∉ rest.map Link.href))
        = s.preloadedUrls.filter
          (fun u => decide (u ∉ (lk :: rest).map Link.href))
      rw [List.filter_filter]
      apply List.filter_congr
      intro u _
      by_cases h1 : u = lk.href <;>
        by_cases h2 : u ∈ rest.map Link.href <;> simp [h1, h2]

/-- A link the instance did not add is never removed by its cleanup. -/
theorem cleanupPreload_preserves (added : List Link) :
    ∀ (s : PreloadState) (lk : Link), lk ∈ s.head → lk ∉ added →
    lk ∈ (cleanupPreload s added).head := by
  induction added with
  | nil => intro s lk h _; exact h
  | cons a rest ih =>
    intro s lk h hna
    rw [cleanup_cons]
    have hne : lk ≠ a := fun e => hna (e ▸ List.mem_cons_self a rest)
    have hstep : lk ∈ (cleanupOne s a).head := by
      unfold cleanupOne
      by_cases ha : a ∈ s.head
      · rw [if_pos ha]
        exact (List.mem_erase_of_ne hne).mpr h
      · rw [if_neg ha]
        exact h
    exact ih (cleanupOne s a) lk hstep
      fun hr => hna (List.mem_cons_of_mem _ hr)

/- ======================================================================
   C4: exact ownership-scoped teardown
   ====================================================================== -/

/-- C4: on teardown with the instance's (distinct) links all still in the
(duplicate-free) document head, the cleanup removes exactly the hint
elements this instance added and exactly those URLs' registry entries;
a hint some other instance owns (a link not in this instance's list) is
never removed; and removing a link already absent from the head is a
silent no-op. -/
theorem cleanup_ownership (s : PreloadState) (added : List Link)
    (hnd : added.Nodup) (hh : s.head.Nodup)
    (hmem : ∀ lk ∈ added, lk ∈ s.head) :
    ((cleanupPreload s added).head
        = s.head.filter (fun lk => decide (lk ∉ added)) ∧
      (cleanupPreload s added).preloadedUrls
        = s.preloadedUrls.filter
            (fun u => decide (u ∉ added.map Link.href))) ∧
    (∀ lk ∈ s.head, lk ∉ added → lk ∈ (cleanupPreload s added).head) ∧
    (∀ lk, lk ∉ s.head → cleanupOne s lk = s) := by
  obtain ⟨e1, e2, _⟩ := cleanupPreload_exact added s hnd hh hmem
  refine ⟨⟨e1, e2⟩, ?_, ?_⟩
  · intro lk hlk hna
    exact cleanupPreload_preserves added s lk hlk hna
  · intro lk hlk
    simp [cleanupOne, hlk]

/-- Witness for `cleanup_ownership`: instance A owns the hint for `"a"`
(node 0); the hint for `"b"` (node 1, owned elsewhere) survives A's
teardown, and A's own hint and registry entry are gone. -/
theorem cleanup_ownership_witness :
    ([⟨0, "a"⟩] : List Link).Nodup ∧
    ([⟨0, "a"⟩, ⟨1, "b"⟩] : List Link).Nodup ∧
    (cleanupPreload ⟨["a", "b"], [⟨0, "a"⟩, ⟨1, "b"⟩], 2⟩ [⟨0, "a"⟩]).head
      = ([⟨0, "a"⟩, ⟨1, "b"⟩] : List Link).filter
          (fun lk => decide (lk ∉ ([⟨0, "a"⟩] : List Link))) := by
  have h1 : ([⟨0, "a"⟩] : List Link).Nodup := by decide
  have h2 : ([⟨0, "a"⟩, ⟨1, "b"⟩] : List Link).Nodup := by decide
  have h3 : ∀ lk ∈ ([⟨0, "a"⟩] : List Link),
      lk ∈ (PreloadState.mk ["a", "b"] [⟨0, "a"⟩, ⟨1, "b"⟩] 2).head := by
    decide
  exact ⟨h1, h2,
    ((cleanup_ownership ⟨["a", "b"], [⟨0, "a"⟩, ⟨1, "b"⟩], 2⟩ [⟨0, "a"⟩]
      h1 h2 h3).1).1⟩

/- ======================================================================
   TVBox subscription merge (tvbox utilities source file)
   ====================================================================== -/

/-- A site entry of a TVBox subscription JSON (`interface TVBoxSite`). -/
structure TVBoxSite where
  key : String
  name : String
  type : ℕ
  api : String
  searchable : Option ℕ := none
  quickSearch : Option ℕ := none
  filterable : Option ℕ := none
  ext : Option String := none
  categories : Option (List String) := none

/-- An entry of `AdminConfig.SourceConfig`; field set taken from the
object literal pushed by `mergeTVBoxSites` (the `admin.types` declaration
itself is in a different file of the repository). `from` is a Lean
keyword, hence the trailing underscore. -/
structure SourceConfigEntry where
  key : String
  name : String
  api : String
  from_ : String
  disabled : Bool
  is_adult : Bool
  detail : String

/-- The slice of `AdminConfig` that `mergeTVBoxSites` reads and writes:
its `SourceConfig` array. All other fields pass through the
`{ ...adminConfig }` spread untouched. -/
structure AdminConfig where
  SourceConfig : List SourceConfigEntry

/-- Key sanitizer `sanitizeKey`:
`name.replace(/[^a-zA-Z0-9]/g, '_').toLowerCase()`. -/
def sanitizeKey (name : String) : String :=
  (String.map (fun c => if c.isAlphanum then c else '_') name).toLower

/-- JS `String.prototype.startsWith`. -/
def jsStartsWith (s pre : String) : Bool :=
  pre.data.isPrefixOf s.data

/-- Subscription merge `mergeTVBoxSites`: drop all previous sites of this subscription
(keys starting with `tvbox_<safeName>_`), then append the incoming sites
under that key prefix:

```
const newConfig = { ...adminConfig };
const safeName = sanitizeKey(subscriptionName);
newConfig.SourceConfig = newConfig.SourceConfig.filter(
  (s) => !s.key.startsWith(`tvbox_\x7bsafeName\x7d_`));
const newSites = sites.map((site) => ({
  key: `tvbox_\x7bsafeName\x7d_\x7bsite.key\x7d`, name: `\x7bsite.name\x7d`,
  api: site.api, from: 'tvbox', disabled: false, is_adult: false,
  detail: site.name }));
newConfig.SourceConfig.push(...newSites);
return newConfig;
```
-/
def mergeTVBoxSites (adminConfig : AdminConfig) (sites : List TVBoxSite)
    (subscriptionName : String) : AdminConfig :=
  let safeName := sanitizeKey subscriptionName
  let kept := adminConfig.SourceConfig.filter
    (fun s => !(jsStartsWith s.key ("tvbox_" ++ safeName ++ "_")))
  let newSites := sites.map (fun site =>
    { key := "tvbox_" ++ safeName ++ "_" ++ site.key
      name := site.name
      api := site.api
      from_ := "tvbox"
      disabled := false
      is_adult := false
      detail := site.name : SourceConfigEntry })
  { adminConfig with SourceConfig := kept ++ newSites }

/-- A string always starts with its own prefix. -/
theorem jsStartsWith_append (pre rest : String) :
    jsStartsWith (pre ++ rest) pre = true := by
  simp [jsStartsWith]

/-- C10: merging the same sites under the same subscription name twice
yields the same `SourceConfig` as merging once, and every pre-existing
entry whose key does not start with `tvbox_<sanitizeKey name>_` is kept
unchanged and in its original order. -/
theorem mergeTVBoxSites_idem_frame (cfg : AdminConfig)
    (sites : List TVBoxSite) (subscriptionName : String) :
    mergeTVBoxSites (mergeTVBoxSites cfg sites subscriptionName) sites
        subscriptionName
      = mergeTVBoxSites cfg sites subscriptionName ∧
    (mergeTVBoxSites cfg sites subscriptionName).SourceConfig.filter
        (fun s => !(jsStartsWith s.key
          ("tvbox_" ++ sanitizeKey subscriptionName ++ "_")))
      = cfg.SourceConfig.filter
        (fun s => !(jsStartsWith s.key
          ("tvbox_" ++ sanitizeKey subscriptionName ++ "_"))) := by
  have hnew : ∀ e ∈ sites.map (fun site =>
      { key := "tvbox_" ++ sanitizeKey subscriptionName ++ "_" ++ site.key
        name := site.name
        api := site.api
        from_ := "tvbox"
        disabled := false
        is_adult := false
        detail := site.name : SourceConfigEntry }),
      ¬ ((fun s : SourceConfigEntry => !(jsStartsWith s.key
          ("tvbox_" ++ sanitizeKey subscriptionName ++ "_"))) e = true) := by
    intro e he
    obtain ⟨site, _, rfl⟩ := List.mem_map.mp he
    simp [jsStartsWith_append ("tvbox_" ++ sanitizeKey subscriptionName ++ "_")
      site.key]
  have hfilter : ∀ l : List SourceConfigEntry,
      (l.filter (fun s => !(jsStartsWith s.key
          ("tvbox_" ++ sanitizeKey subscriptionName ++ "_"))) ++
        sites.map (fun site =>
          { key := "tvbox_" ++ sanitizeKey subscriptionName ++ "_" ++ site.key
            name := site.name
            api := site.api
            from_ := "tvbox"
            disabled := false
            is_adult := false
            detail := site.name : SourceConfigEntry })).filter
        (fun s => !(jsStartsWith s.key
          ("tvbox_" ++ sanitizeKey subscriptionName ++ "_")))
      = l.filter (fun s => !(jsStartsWith s.key
          ("tvbox_" ++ sanitizeKey subscriptionName ++ "_"))) := by
    intro l
    rw [List.filter_append, List.filter_filter,
      List.filter_eq_nil_iff.mpr hnew, List.append_nil]
    apply List.filter_congr
    intro x _
    rw [Bool.and_self]
  constructor
  · show ({ mergeTVBoxSites cfg sites subscriptionName with
        SourceConfig := _ } : AdminConfig) = _
    unfold mergeTVBoxSites
    congr 1
    exact congrArg (· ++ _) (hfilter cfg.SourceConfig)
  · exact hfilter cfg.SourceConfig

end DecoTV
